import Mathlib

/-!
Verification of the local-operator executor core against its specification.

The Python sources under `local_operator/` are embedded shallowly:
strings are lists of characters, the conversation is a list of records,
and each effectful call (LLM invocation, sandbox execution, file system)
is represented by its outcome, passed in as an explicit argument.
-/

/-- ASCII apostrophe, kept as a named character. -/
def squote : Char := Char.ofNat 39

/-- Modelled from the spec: `local_operator.types.ConversationRole`
(the module `local_operator/types.py` is not among the source files;
§3 of the spec lists the role as one of system/user/assistant). -/
inductive ConversationRole where
  | system
  | user
  | assistant
deriving DecidableEq, Repr

/-- Modelled from the spec: `local_operator.types.ConversationRecord`
(the module `local_operator/types.py` is not among the source files; §3 of
the spec lists the fields).  The wall-clock `timestamp` field is not
modelled; boolean fields default to `false` except `should_summarize`,
which call sites in `executor.py` pass explicitly wherever it matters. -/
structure ConversationRecord where
  role : ConversationRole
  content : List Char
  should_summarize : Bool := true
  summarized : Bool := false
  is_system_prompt : Bool := false
  should_cache : Bool := false
  ephemeral : Bool := false
deriving DecidableEq, Repr

instance : Inhabited ConversationRecord :=
  ⟨{ role := ConversationRole.user, content := [] }⟩

/-- Python `str.lower` restricted to the ASCII contents that occur here
(`executor.py` line 142: `content_lower = response_content.lower()`). -/
def pyLower (s : List Char) : List Char := s.map Char.toLower

/-- Python's `needle in hay` substring test (`executor.py` lines 143, 145). -/
def pyIn (needle hay : List Char) : Bool := decide (needle <:+: hay)

/-- `executor.ConfirmSafetyResult` (executor.py lines 126-134). -/
inductive ConfirmSafetyResult where
  | SAFE
  | UNSAFE
  | OVERRIDE
  | CONVERSATION_CONFIRM
deriving DecidableEq, Repr

/-- `executor.get_confirm_safety_result` (executor.py lines 137-148). -/
def get_confirm_safety_result (response_content : List Char) : ConfirmSafetyResult :=
  if response_content = [] then ConfirmSafetyResult.SAFE
  else
    let content_lower := pyLower response_content
    if pyIn "[override]".toList content_lower then ConfirmSafetyResult.OVERRIDE
    else if pyIn "[unsafe]".toList content_lower then ConfirmSafetyResult.UNSAFE
    else ConfirmSafetyResult.SAFE

/-- Case-insensitive substring containment, as the spec words it:
both sides are lowered before the substring match. -/
def containsCaseInsensitive (needle s : List Char) : Bool :=
  pyIn (pyLower needle) (pyLower s)

/-- The verdict-extraction rule exactly as the spec states it: case-insensitive
substring match against `[override]`, then `[unsafe]`, else SAFE. -/
def specSafetyVerdict (s : List Char) : ConfirmSafetyResult :=
  if containsCaseInsensitive "[override]".toList s then ConfirmSafetyResult.OVERRIDE
  else if containsCaseInsensitive "[unsafe]".toList s then ConfirmSafetyResult.UNSAFE
  else ConfirmSafetyResult.SAFE

/-- C2: for every auditor response string, safety verdict extraction is a
case-insensitive substring match: `[override]` gives OVERRIDE, otherwise
`[unsafe]` gives UNSAFE, otherwise (including the empty string) SAFE. -/
theorem get_confirm_safety_result_matches_spec (s : List Char) :
    get_confirm_safety_result s = specSafetyVerdict s := by
  unfold get_confirm_safety_result specSafetyVerdict containsCaseInsensitive
  have hov : pyLower "[override]".toList = "[override]".toList := by decide
  have hun : pyLower "[unsafe]".toList = "[unsafe]".toList := by decide
  rw [hov, hun]
  by_cases h : s = []
  · subst h
    decide
  · simp [h]

/-! ## Conversation store: append, trim, ephemeral removal -/

/-- The synthetic truncation marker record that
`LocalCodeExecutor._limit_conversation_history` inserts
(executor.py lines 2163-2167). -/
def truncationMarker : ConversationRecord :=
  { role := ConversationRole.user
    content := "[Some conversation history has been truncated for brevity]".toList
    should_summarize := false }

/-- Python's slice `l[-k:]`: for `k = 0` it is the whole list (Python `l[-0:]`
is `l[0:]`), otherwise the last `min k (length l)` elements. -/
def pySliceLast (l : List α) (k : Nat) : List α :=
  if k = 0 then l else l.drop (l.length - k)

/-- `LocalCodeExecutor._limit_conversation_history` (executor.py lines
2152-2168): when the record count minus one exceeds
`max_conversation_history`, keep `conversation[0]`, insert the truncation
marker, and keep the Python slice `conversation[-chunk_size:]` where
`chunk_size = max_conversation_history // 2`.  `conversation.take 1` is
`[conversation[0]]` whenever the guard holds (the list is then nonempty). -/
def limit_conversation_history (max_conversation_history : Nat)
    (conversation : List ConversationRecord) : List ConversationRecord :=
  let chunk_size := max_conversation_history / 2
  if conversation.length - 1 > max_conversation_history then
    conversation.take 1 ++ [truncationMarker] ++ pySliceLast conversation chunk_size
  else
    conversation

/-- `LocalCodeExecutor.append_to_history` (executor.py lines 486-508):
append the record, then re-limit the history.  (Timestamp assignment is
not modelled.) -/
def append_to_history (max_conversation_history : Nat)
    (conversation : List ConversationRecord) (new_record : ConversationRecord) :
    List ConversationRecord :=
  limit_conversation_history max_conversation_history (conversation ++ [new_record])

/-- `LocalCodeExecutor.remove_ephemeral_messages` (executor.py lines
2233-2237). -/
def remove_ephemeral_messages (conversation : List ConversationRecord) :
    List ConversationRecord :=
  conversation.filter (fun msg => !msg.ephemeral)

/-- The conversation invariant exactly as claim C7 states it: the first
record is the system prompt (and carries the system role), every other
record has role user or assistant, and the length never exceeds
`max_conversation_history + 2`. -/
def conversation_invariant (max_conversation_history : Nat) :
    List ConversationRecord → Bool
  | [] => false
  | h :: t =>
    h.is_system_prompt &&
    decide (h.role = ConversationRole.system) &&
    t.all (fun r =>
      decide (r.role = ConversationRole.user) ||
      decide (r.role = ConversationRole.assistant)) &&
    decide (t.length + 1 ≤ max_conversation_history + 2)

/-- Splitting the invariant on a cons cell. -/
theorem conversation_invariant_cons (max : Nat) (h : ConversationRecord)
    (t : List ConversationRecord) :
    conversation_invariant max (h :: t) = true ↔
      h.is_system_prompt = true ∧ h.role = ConversationRole.system ∧
      (∀ x ∈ t, x.role = ConversationRole.user ∨ x.role = ConversationRole.assistant) ∧
      t.length + 1 ≤ max + 2 := by
  simp [conversation_invariant, List.all_eq_true]
  tauto

/-- C1 (amended with `2 ≤ max_conversation_history`): whenever a record is
appended via `append_to_history` and the count excluding the system prompt
exceeds `max_conversation_history`, the conversation is trimmed to the
first record, the synthetic non-summarizable truncation marker, and the
most recent `max_conversation_history / 2` records, leaving
`1 + 1 + max_conversation_history / 2` records. -/
theorem append_to_history_trims (max : Nat) (conversation : List ConversationRecord)
    (r : ConversationRecord) (hmax : 2 ≤ max)
    (hlen : max < (conversation ++ [r]).length - 1) :
    append_to_history max conversation r
      = (conversation ++ [r]).take 1 ++ [truncationMarker]
          ++ (conversation ++ [r]).drop ((conversation ++ [r]).length - max / 2)
    ∧ (append_to_history max conversation r).length = 1 + 1 + max / 2
    ∧ truncationMarker.content
        = "[Some conversation history has been truncated for brevity]".toList
    ∧ truncationMarker.should_summarize = false := by
  have hchunk : max / 2 ≠ 0 := by omega
  have hfull : (conversation ++ [r]).length = conversation.length + 1 := by
    simp
  have heq : append_to_history max conversation r
      = (conversation ++ [r]).take 1 ++ [truncationMarker]
          ++ (conversation ++ [r]).drop ((conversation ++ [r]).length - max / 2) := by
    unfold append_to_history limit_conversation_history pySliceLast
    simp only [if_pos hlen, if_neg hchunk]
  refine ⟨heq, ?_, rfl, rfl⟩
  rw [heq]
  simp only [List.length_append, List.length_drop, List.length_take,
    List.length_singleton] at hlen ⊢
  omega

/-- Concrete records used for witnesses and counterexamples. -/
def demoSys : ConversationRecord :=
  { role := ConversationRole.system, content := "S".toList, is_system_prompt := true }

def demoU1 : ConversationRecord := { role := ConversationRole.user, content := "u1".toList }

def demoU2 : ConversationRecord := { role := ConversationRole.user, content := "u2".toList }

def demoU3 : ConversationRecord := { role := ConversationRole.user, content := "u3".toList }

def demoA1 : ConversationRecord :=
  { role := ConversationRole.assistant, content := "a1".toList }

/-- Witness for `append_to_history_trims`: at `max = 4` a conversation of six
records trims to `1 + 1 + 2` records. -/
theorem append_to_history_trims_witness :
    append_to_history 4 [demoSys, demoU1, demoU2, demoU3, demoA1] demoU1
      = ([demoSys, demoU1, demoU2, demoU3, demoA1, demoU1].take 1) ++ [truncationMarker]
          ++ ([demoSys, demoU1, demoU2, demoU3, demoA1, demoU1].drop 4)
    ∧ (append_to_history 4 [demoSys, demoU1, demoU2, demoU3, demoA1] demoU1).length
        = 1 + 1 + 4 / 2
    ∧ truncationMarker.content
        = "[Some conversation history has been truncated for brevity]".toList
    ∧ truncationMarker.should_summarize = false :=
  append_to_history_trims 4 [demoSys, demoU1, demoU2, demoU3, demoA1] demoU1
    (by decide) (by decide)

/-- Counterexample to C1 as stated: at `max_conversation_history = 1` the
count excluding the system prompt is exactly `max + 1`, a trim fires, but
(because Python's `conversation[-0:]` is the whole list) it leaves 5
records, not `1 + 1 + max / 2 = 2`. -/
theorem append_to_history_trims_cex :
    (([demoSys, demoU1] : List ConversationRecord) ++ [demoU2]).length - 1 = 1 + 1
    ∧ (append_to_history 1 [demoSys, demoU1] demoU2).length = 5
    ∧ ¬ (append_to_history 1 [demoSys, demoU1] demoU2).length = 1 + 1 + 1 / 2 := by
  decide

/-- C7 (amended): provided `2 ≤ max_conversation_history`, the appended
record has role user or assistant, and the leading system-prompt record is
not ephemeral, both `append_to_history` (with the trim it triggers) and
`remove_ephemeral_messages` preserve the invariant that the first record
is the system prompt, all other records have role user or assistant, and
the length never exceeds `max_conversation_history + 2`. -/
theorem conversation_invariant_preserved (max : Nat)
    (conversation : List ConversationRecord) (r : ConversationRecord)
    (hmax : 2 ≤ max)
    (hrole : r.role = ConversationRole.user ∨ r.role = ConversationRole.assistant)
    (hinv : conversation_invariant max conversation = true)
    (hhead : ∀ x ∈ conversation.take 1, x.ephemeral = false) :
    conversation_invariant max (append_to_history max conversation r) = true
    ∧ conversation_invariant max (remove_ephemeral_messages conversation) = true := by
  match conversation, hinv with
  | h :: t, hinv =>
  rw [conversation_invariant_cons] at hinv
  obtain ⟨hsp, hsys, htroles, htlen⟩ := hinv
  have hephemeral : h.ephemeral = false := hhead h (by simp)
  constructor
  · -- append_to_history preserves the invariant
    unfold append_to_history limit_conversation_history pySliceLast
    by_cases hg : ((h :: t) ++ [r]).length - 1 > max
    · have hchunk : max / 2 ≠ 0 := by omega
      simp only [if_pos hg, if_neg hchunk]
      have hidx : ((h :: t) ++ [r]).length - max / 2 = (t ++ [r]).length + 1 - max / 2 := by
        simp
      have hlen' : (t ++ [r]).length + 1 - 1 > max := by
        simpa using hg
      have hdrop :
          ((h :: t) ++ [r]).drop (((h :: t) ++ [r]).length - max / 2)
            = (t ++ [r]).drop ((t ++ [r]).length - max / 2) := by
        have hpos : ((h :: t) ++ [r]).length - max / 2 = ((t ++ [r]).length - max / 2) + 1 := by
          simp only [List.cons_append, List.length_cons]
          omega
        rw [hpos]
        simp
      rw [hdrop]
      have htake : ((h :: t) ++ [r]).take 1 = [h] := by simp
      rw [htake]
      rw [show ([h] ++ [truncationMarker]
            ++ (t ++ [r]).drop ((t ++ [r]).length - max / 2))
          = h :: (truncationMarker :: (t ++ [r]).drop ((t ++ [r]).length - max / 2)) from rfl]
      rw [conversation_invariant_cons]
      refine ⟨hsp, hsys, ?_, ?_⟩
      · intro x hx
        rcases List.mem_cons.mp hx with hx | hx
        · subst hx
          left
          rfl
        · have hx' : x ∈ t ++ [r] := List.drop_subset _ _ hx
          rcases List.mem_append.mp hx' with hx' | hx'
          · exact htroles x hx'
          · rw [List.mem_singleton.mp hx']
            exact hrole
      · simp only [List.length_cons, List.length_drop, List.length_append,
          List.length_singleton]
        omega
    · simp only [if_neg hg]
      rw [show ((h :: t) ++ [r]) = h :: (t ++ [r]) from rfl]
      rw [conversation_invariant_cons]
      refine ⟨hsp, hsys, ?_, ?_⟩
      · intro x hx
        rcases List.mem_append.mp hx with hx | hx
        · exact htroles x hx
        · rw [List.mem_singleton.mp hx]
          exact hrole
      · simp only [List.cons_append, List.length_cons, List.length_append,
          List.length_singleton, gt_iff_lt, not_lt] at hg ⊢
        omega
  · -- remove_ephemeral_messages preserves the invariant
    unfold remove_ephemeral_messages
    rw [List.filter_cons_of_pos (by simp [hephemeral])]
    rw [conversation_invariant_cons]
    refine ⟨hsp, hsys, ?_, ?_⟩
    · intro x hx
      exact htroles x (List.mem_of_mem_filter hx)
    · have := List.length_filter_le (fun msg => !msg.ephemeral) t
      omega

/-- Witness for `conversation_invariant_preserved` at a concrete state. -/
theorem conversation_invariant_preserved_witness :
    conversation_invariant 4 (append_to_history 4 [demoSys, demoU1] demoU2) = true
    ∧ conversation_invariant 4 (remove_ephemeral_messages [demoSys, demoU1]) = true :=
  conversation_invariant_preserved 4 [demoSys, demoU1] demoU2
    (by decide) (Or.inl rfl) (by decide) (by decide)

/-- Counterexample to C7 as stated: at `max_conversation_history = 1` the
invariant holds for a three-record conversation, the appended record is a
plain user record, and yet after `append_to_history` the invariant is
broken (the conversation grows to 6 records, exceeding `max + 2 = 3`). -/
theorem conversation_invariant_preserved_cex :
    conversation_invariant 1 [demoSys, demoU1, demoU2] = true
    ∧ demoU3.role = ConversationRole.user
    ∧ conversation_invariant 1 (append_to_history 1 [demoSys, demoU1, demoU2] demoU3)
        = false := by
  decide

/-! ## Provider dispatch: `_convert_and_stream` message conversion -/

/-- One outgoing provider message as `_convert_and_stream` builds it
(executor.py lines 758-772): the record's role and text, plus whether the
`cache_control` marker was attached to its content block. -/
structure OutgoingMessage where
  role : ConversationRole
  text : List Char
  cache_control : Bool
deriving DecidableEq, Repr

def defaultOutgoingMessage : OutgoingMessage :=
  { role := ConversationRole.user, text := [], cache_control := false }

instance : Inhabited OutgoingMessage := ⟨defaultOutgoingMessage⟩

/-- The dictionary built for one record (executor.py lines 763-771): the
role is passed through unchanged. -/
def toOutgoingMessage (record : ConversationRecord) : OutgoingMessage :=
  { role := record.role, text := record.content, cache_control := false }

/-- The indices of `messages_list` that the cache-control loop marks
(executor.py lines 774-785): walk `idx` from `n - 1` down to `0`, mark
`messages_list[idx]` whenever `messages[idx].should_cache` (note the index
is read off the *unfiltered* `messages`), and break once 4 are marked.
`cache_count` is the number already marked. -/
def cacheControlIdxs (messages : List ConversationRecord) : Nat → Nat → List Nat
  | _, 0 => []
  | cache_count, n + 1 =>
    if (messages.getD n default).should_cache then
      if cache_count + 1 ≥ 4 then [n]
      else n :: cacheControlIdxs messages (cache_count + 1) n
    else cacheControlIdxs messages cache_count n

/-- Mark `cache_control` on the messages at the given indices (`i` is the
index of the head of `l`). -/
def setCacheControl (idxs : List Nat) : Nat → List OutgoingMessage → List OutgoingMessage
  | _, [] => []
  | i, m :: rest =>
    (if i ∈ idxs then { m with cache_control := true } else m)
      :: setCacheControl idxs (i + 1) rest

/-- `LocalCodeExecutor._convert_and_stream`, message-construction part
(executor.py lines 751-786): records with empty content are skipped, each
remaining record becomes an outgoing message with its role unchanged, and
when the provider requires manual cache control the reverse walk marks up
to 4 messages. -/
def convert_and_stream_messages (should_manual_cache_control : Bool)
    (messages : List ConversationRecord) : List OutgoingMessage :=
  let messages_list :=
    (messages.filter (fun record => !record.content.isEmpty)).map toOutgoingMessage
  if should_manual_cache_control then
    setCacheControl (cacheControlIdxs messages 0 messages_list.length) 0 messages_list
  else
    messages_list

/-- The indices the spec designates: the last (up to) 4 indices of records
whose `should_cache` flag is true. -/
def cacheSpecIdxs (messages : List ConversationRecord) : List Nat :=
  (((List.range messages.length).filter
      (fun i => (messages.getD i default).should_cache)).reverse).take 4

/-- The marked index set equals the reversed filtered index range, cut to
`4 - cache_count`. -/
theorem cacheControlIdxs_eq (msgs : List ConversationRecord) :
    ∀ n c, c ≤ 3 →
      cacheControlIdxs msgs c n
        = (((List.range n).filter
              (fun i => (msgs.getD i default).should_cache)).reverse).take (4 - c) := by
  intro n
  induction n with
  | zero =>
    intro c hc
    simp [cacheControlIdxs]
  | succ n ih =>
    intro c hc
    rw [List.range_succ, List.filter_append, List.reverse_append]
    simp only [List.filter_cons, List.filter_nil]
    by_cases hp : (msgs.getD n default).should_cache = true
    · simp only [if_pos hp, List.reverse_cons, List.reverse_nil, List.nil_append,
        List.singleton_append]
      have h4 : 4 - c = (3 - c) + 1 := by omega
      rw [h4, List.take_succ_cons]
      show cacheControlIdxs msgs c (n + 1) = _
      rw [cacheControlIdxs]
      rw [if_pos hp]
      by_cases hbreak : c + 1 ≥ 4
      · have hc3 : c = 3 := by omega
        subst hc3
        simp
      · rw [if_neg hbreak]
        rw [ih (c + 1) (by omega)]
        have : 4 - (c + 1) = 3 - c := by omega
        rw [this]
    · simp only [Bool.not_eq_true] at hp
      simp only [hp, Bool.false_eq_true, if_false, List.reverse_nil, List.append_nil]
      show cacheControlIdxs msgs c (n + 1) = _
      rw [cacheControlIdxs]
      rw [hp]
      simp only [Bool.false_eq_true, if_false]
      exact ih c hc

/-- Element `j` of `setCacheControl idxs i l`: the original message, with
`cache_control` forced true exactly when `i + j` is a marked index. -/
theorem setCacheControl_getD (idxs : List Nat) :
    ∀ (l : List OutgoingMessage) (i j : Nat), j < l.length →
      (setCacheControl idxs i l).getD j defaultOutgoingMessage
        = (if (i + j) ∈ idxs
            then { l.getD j defaultOutgoingMessage with cache_control := true }
            else l.getD j defaultOutgoingMessage) := by
  intro l
  induction l with
  | nil =>
    intro i j hj
    simp at hj
  | cons m rest ih =>
    intro i j hj
    cases j with
    | zero =>
      simp [setCacheControl]
    | succ j' =>
      have hj' : j' < rest.length := by
        simpa using hj
      simp only [setCacheControl, List.getD_cons_succ]
      rw [ih (i + 1) j' hj']
      have harith : i + 1 + j' = i + (j' + 1) := by omega
      rw [harith]

/-- `getD` through `List.map` at an in-range index. -/
theorem getD_map_toOutgoing (messages : List ConversationRecord) (i : Nat)
    (hi : i < messages.length) :
    (messages.map toOutgoingMessage).getD i defaultOutgoingMessage
      = toOutgoingMessage (messages.getD i default) := by
  rw [List.getD_eq_getElem?_getD, List.getElem?_map, List.getD_eq_getElem?_getD]
  rw [List.getElem?_eq_getElem hi]
  simp

/-- C8 (amended): when every record dispatched has non-empty content, a
provider requiring explicit cache-control markers sees exactly the last
(up to) 4 records whose `should_cache` flag is true carry the marker, and
no other record carries it. -/
theorem cache_control_marks_last_four (messages : List ConversationRecord) (i : Nat)
    (hall : ∀ r ∈ messages, r.content ≠ [])
    (hi : i < messages.length) :
    ((convert_and_stream_messages true messages).getD i defaultOutgoingMessage).cache_control
        = true
      ↔ i ∈ cacheSpecIdxs messages := by
  have hfilter : messages.filter (fun record => !record.content.isEmpty) = messages := by
    rw [List.filter_eq_self]
    intro a ha
    have hne := hall a ha
    cases hc : a.content with
    | nil => exact absurd hc hne
    | cons c cs => simp [hc, List.isEmpty]
  unfold convert_and_stream_messages
  simp only [hfilter, if_true, List.length_map]
  rw [setCacheControl_getD _ _ 0 i (by simpa using hi)]
  rw [getD_map_toOutgoing messages i hi]
  rw [cacheControlIdxs_eq messages messages.length 0 (by omega)]
  have hzero : 0 + i = i := by omega
  rw [hzero]
  unfold cacheSpecIdxs
  by_cases hmem :
      i ∈ (((List.range messages.length).filter
        (fun k => (messages.getD k default).should_cache)).reverse).take (4 - 0)
  · simp only [if_pos hmem]
    simpa using hmem
  · simp only [if_neg hmem]
    simp only [toOutgoingMessage]
    constructor
    · intro hfalse
      exact absurd hfalse (by simp)
    · intro hin
      exact absurd (by simpa using hin) hmem

/-- Records used by the cache-control witness and counterexample. -/
def cacheRecEmpty : ConversationRecord :=
  { role := ConversationRole.user, content := [], should_cache := true }

def cacheRecPlain : ConversationRecord :=
  { role := ConversationRole.user, content := "b".toList, should_cache := false }

def cacheRecOn (s : String) : ConversationRecord :=
  { role := ConversationRole.user, content := s.toList, should_cache := true }

/-- Witness for `cache_control_marks_last_four`: with five cache-flagged
records among seven, index 3 is among the last four flagged and is marked. -/
theorem cache_control_marks_last_four_witness :
    ((convert_and_stream_messages true
        [demoSys, cacheRecOn "c1", demoU1, cacheRecOn "c2", cacheRecOn "c3",
          cacheRecOn "c4", cacheRecOn "c5"]).getD 3
        defaultOutgoingMessage).cache_control = true
      ↔ 3 ∈ cacheSpecIdxs
          [demoSys, cacheRecOn "c1", demoU1, cacheRecOn "c2", cacheRecOn "c3",
            cacheRecOn "c4", cacheRecOn "c5"] :=
  cache_control_marks_last_four
    [demoSys, cacheRecOn "c1", demoU1, cacheRecOn "c2", cacheRecOn "c3",
      cacheRecOn "c4", cacheRecOn "c5"] 3 (by decide) (by decide)

/-- Counterexample to C8 as stated: a record with empty content is skipped
from the outgoing list, so the reverse walk reads `should_cache` flags at
misaligned indices: the sole outgoing record (content `b`) has
`should_cache = false` yet carries the cache-control marker. -/
theorem cache_control_misaligned_cex :
    ([cacheRecEmpty, cacheRecPlain].map ConversationRecord.should_cache = [true, false])
    ∧ ((convert_and_stream_messages true [cacheRecEmpty, cacheRecPlain]).map
        OutgoingMessage.text = ["b".toList])
    ∧ ((convert_and_stream_messages true [cacheRecEmpty, cacheRecPlain]).map
        OutgoingMessage.cache_control = [true]) := by
  decide

/-- C4: evaluating the dispatch conversion at two system-role records shows
the second record is sent with the system role unchanged, although
`invoke_model`'s own documentation (executor.py lines 837-839) says all
messages after the first are user messages. -/
theorem later_system_role_not_reassigned :
    (convert_and_stream_messages false
        [{ role := ConversationRole.system, content := "a".toList,
           is_system_prompt := true },
         { role := ConversationRole.system, content := "b".toList }]).map
        OutgoingMessage.role
      = [ConversationRole.system, ConversationRole.system] := by
  decide

/-! ## `execute_code`: the retry loop -/

/-- Outcomes the sandbox and the correction model can produce, indexed by
attempt: `execOutcome i = none` means the `i`-th execution attempt
(0-based) succeeds, `some e` that it raises error `e`;
`correctedCode j = none` means the `j`-th `_get_corrected_code` call fails
(model error or schema violation), `some c` that it yields code `c`. -/
structure ExecOracle where
  execOutcome : Nat → Option (List Char)
  correctedCode : Nat → Option (List Char)

/-- The observable trace of one `execute_code` call. -/
structure ExecTrace where
  execAttempts : Nat
  correctionRequests : Nat
  errorsRecorded : Nat
  success : Bool
deriving DecidableEq, Repr

/-- The loop body of `LocalCodeExecutor.execute_code` (executor.py lines
1168-1198): `for attempt in range(max_retries)`, each iteration makes one
execution attempt; on error the error is recorded in the conversation and,
only while `attempt < max_retries - 1`, a corrected response is requested
(a failed correction breaks the loop); falling out of the loop returns an
ERROR result. -/
def executeCodeAux (oracle : ExecOracle) (max_retries : Nat) :
    Nat → Nat → Nat → Nat → ExecTrace
  | attempt, execCount, corrCount, errCount =>
    if _h : attempt < max_retries then
      match oracle.execOutcome attempt with
      | none => ⟨execCount + 1, corrCount, errCount, true⟩
      | some _ =>
        if attempt < max_retries - 1 then
          match oracle.correctedCode corrCount with
          | some _ =>
            executeCodeAux oracle max_retries (attempt + 1) (execCount + 1)
              (corrCount + 1) (errCount + 1)
          | none => ⟨execCount + 1, corrCount + 1, errCount + 1, false⟩
        else
          executeCodeAux oracle max_retries (attempt + 1) (execCount + 1)
            corrCount (errCount + 1)
    else
      ⟨execCount, corrCount, errCount, false⟩
termination_by attempt => max_retries - attempt

/-- `LocalCodeExecutor.execute_code` with its default `max_retries = 1`
(executor.py line 1156), abstracted to its control-flow trace. -/
def execute_code_trace (oracle : ExecOracle) (max_retries : Nat := 1) : ExecTrace :=
  executeCodeAux oracle max_retries 0 0 0 0

/-- An oracle whose first execution attempt always raises, and whose
correction model would always answer (so any re-prompt would be visible in
the trace). -/
def failingFirstAttempt : ExecOracle :=
  { execOutcome := fun _ => some "NameError: name x is not defined".toList
    correctedCode := fun _ => some "x = 1".toList }

/-- C3: with the default `max_retries = 1`, a CODE action whose first
sandbox execution raises makes exactly one execution attempt, records the
error once, never requests corrected code from the model, and returns an
ERROR trace — no retry is consumed, contradicting the claimed
record-retry-reprompt cycle. -/
theorem execute_code_no_retry_at_default :
    execute_code_trace failingFirstAttempt 1
      = { execAttempts := 1, correctionRequests := 0, errorsRecorded := 1,
          success := false } := by
  rw [execute_code_trace, executeCodeAux]
  simp [failingFirstAttempt, executeCodeAux]

/-! ## `annotate_code` and the EDIT action -/

/-- Python `str.splitlines(keepends=True)` for the `\n`, `\r\n` and `\r`
line boundaries (the ones occurring in this repository's data); each
returned line keeps its terminator (`annotate_code`, executor.py line 264). -/
def slkAux : List Char → List Char → List (List Char)
  | acc, [] => if acc = [] then [] else [acc.reverse]
  | acc, '\r' :: '\n' :: rest => (acc.reverse ++ ['\r', '\n']) :: slkAux [] rest
  | acc, '\r' :: rest => (acc.reverse ++ ['\r']) :: slkAux [] rest
  | acc, '\n' :: rest => (acc.reverse ++ ['\n']) :: slkAux [] rest
  | acc, c :: rest => slkAux (c :: acc) rest

def splitlines_keepends (s : List Char) : List (List Char) := slkAux [] s

/-- Python `line.rstrip("\r\n")` (executor.py line 269). -/
def rstripNewlines (l : List Char) : List Char :=
  (l.reverse.dropWhile (fun c => c == '\r' || c == '\n')).reverse

/-- Decimal rendering of a line number or length. -/
def natToChars (n : Nat) : List Char := (toString n).toList

/-- Python `f"{x:>4}"`: right-justify to width 4 (no truncation). -/
def rjust (w : Nat) (s : List Char) : List Char :=
  List.replicate (w - s.length) ' ' ++ s

/-- The annotated lines of `annotate_code` (executor.py lines 267-279),
starting at 0-based index `i`.  Python's length expression
`len(line) - (len(line.rstrip("\r\n")) - len(line))` evaluates (with int
arithmetic) to `2 * len(line) - len(line.rstrip("\r\n"))`, which is what
is written here. -/
def annotateLinesFrom (error_line : Option Nat) : Nat → List (List Char) → List Char
  | _, [] => []
  | i, line :: rest =>
    let line_number := i + 1
    let line_length := 2 * line.length - (rstripNewlines line).length
    let error_indicator :=
      match error_line with
      | some e => if line_number = e then " err >> | ".toList else "        | ".toList
      | none => ([] : List Char)
    (error_indicator ++ rjust 4 (natToChars line_number) ++ " | ".toList
        ++ rjust 4 (natToChars line_length) ++ " | ".toList ++ line)
      ++ annotateLinesFrom error_line (i + 1) rest

/-- `executor.annotate_code` (executor.py lines 242-281): `none` for empty
input, otherwise every line prefixed with its (optional) error indicator,
1-based line number and length. -/
def annotate_code (code : List Char) (error_line : Option Nat) : Option (List Char) :=
  if code = [] then none
  else some (annotateLinesFrom error_line 0 (splitlines_keepends code))

/-- One `{find, replace}` entry of an EDIT action's `replacements` list. -/
structure Replacement where
  find : List Char
  repl : List Char
deriving DecidableEq, Repr

/-- The index of the first occurrence of `needle` in a list, scanning left
to right (the semantics of Python `str.replace(old, new, 1)`); `none` when
there is no occurrence.  An empty needle matches at index 0. -/
def firstOccurrence (needle : List Char) : List Char → Option Nat
  | [] => if needle = [] then some 0 else none
  | c :: rest =>
    if needle <+: (c :: rest) then some 0
    else (firstOccurrence needle rest).map (· + 1)

/-- Python `s.replace(old, new, 1)` (executor.py line 2111): replace only
the first occurrence; no occurrence leaves the string unchanged. -/
def replaceFirst (s old new : List Char) : List Char :=
  match firstOccurrence old s with
  | none => s
  | some i => s.take i ++ new ++ s.drop (i + old.length)

/-- The replacement loop of `LocalCodeExecutor.edit_file` (executor.py
lines 2104-2111): apply the replacements in list order over the evolving
content; raise on the first `find` with no occurrence (Python `find not in
file_content`). -/
def edit_apply : List Replacement → List Char → Except (List Char) (List Char)
  | [], file_content => Except.ok file_content
  | r :: rs, file_content =>
    if pyIn r.find file_content then edit_apply rs (replaceFirst file_content r.find r.repl)
    else Except.error r.find

/-- The `ValueError` message of executor.py line 2109:
`Find string '{find}' not found in file {file_path}`. -/
def editErrorMessage (find file_path : List Char) : List Char :=
  "Find string ".toList ++ [squote] ++ find
    ++ ([squote] ++ " not found in file ".toList) ++ file_path

/-- The user record appended by `perform_action`'s error handler
(executor.py lines 1893-1903). -/
def actionErrorRecord (err : List Char) : ConversationRecord :=
  { role := ConversationRole.user
    content :=
      "There was an error encountered while trying to execute your action:\n\n".toList
        ++ err ++ "\n\nPlease adjust your response to fix the issue.".toList
    should_summarize := true }

/-- The user record appended by `edit_file` after a successful edit
(executor.py lines 2120-2136).  When the rewritten content is empty,
Python interpolates `annotate_code`'s `None` as the string `None`. -/
def postEditRecord (file_path file_content : List Char) : ConversationRecord :=
  { role := ConversationRole.user
    content :=
      "Your edits have been applied to the file: ".toList ++ file_path
        ++ "\n\nHere are the contents of the edited file with line numbers and lengths, please review and determine if your edit worked as expected:\n\nLine | Length | Content\n----------------------\nBEGIN\n".toList
        ++ ((annotate_code file_content none).getD "None".toList)
        ++ "\nEND".toList
    should_summarize := true
    should_cache := true }

/-- The joint state after one EDIT action. -/
structure EditOutcome where
  result : Except (List Char) Unit
  disk : List Char
  conversation : List ConversationRecord

/-- One EDIT action over (disk contents, conversation): `edit_file`
(executor.py lines 2079-2150) with its caller's error handler
(`perform_action`, executor.py lines 1890-1903).  On a missing find string
the `ValueError` is raised before the write-back, so the disk is returned
unchanged and the failure is documented as a user record; on success the
rewritten content is written back and the annotated post-edit record is
appended. -/
def edit_file_step (max : Nat) (file_path : List Char) (replacements : List Replacement)
    (disk : List Char) (conversation : List ConversationRecord) : EditOutcome :=
  match edit_apply replacements disk with
  | Except.error find =>
    { result := Except.error (editErrorMessage find file_path)
      disk := disk
      conversation :=
        append_to_history max conversation
          (actionErrorRecord (editErrorMessage find file_path)) }
  | Except.ok new_content =>
    { result := Except.ok ()
      disk := new_content
      conversation :=
        append_to_history max conversation (postEditRecord file_path new_content) }

/-- `firstOccurrence` finds a genuine occurrence, and the earliest one. -/
theorem firstOccurrence_spec (needle : List Char) :
    ∀ (s : List Char) (i : Nat), firstOccurrence needle s = some i →
      needle <+: s.drop i ∧ ∀ j < i, ¬ needle <+: s.drop j := by
  intro s
  induction s with
  | nil =>
    intro i h
    rw [firstOccurrence] at h
    by_cases hne : needle = []
    · rw [if_pos hne] at h
      cases h
      subst hne
      exact ⟨List.nil_prefix, by omega⟩
    · rw [if_neg hne] at h
      cases h
  | cons c rest ih =>
    intro i h
    rw [firstOccurrence] at h
    by_cases hp : needle <+: (c :: rest)
    · rw [if_pos hp] at h
      cases h
      exact ⟨hp, by omega⟩
    · rw [if_neg hp] at h
      rcases Option.map_eq_some'.mp h with ⟨i', hi', rfl⟩
      obtain ⟨hpre, hmin⟩ := ih i' hi'
      constructor
      · simpa using hpre
      · intro j hj
        cases j with
        | zero => simpa using hp
        | succ j' =>
          have hj' : j' < i' := by omega
          simpa using hmin j' hj'

/-- Python's `in` agrees with `firstOccurrence` finding an occurrence. -/
theorem pyIn_iff_firstOccurrence (needle : List Char) :
    ∀ s : List Char, pyIn needle s = true ↔ (firstOccurrence needle s).isSome := by
  intro s
  induction s with
  | nil =>
    rw [firstOccurrence]
    by_cases hne : needle = []
    · subst hne
      simp [pyIn]
    · rw [if_neg hne]
      simp [pyIn, List.infix_nil, hne]
  | cons c rest ih =>
    rw [firstOccurrence]
    by_cases hp : needle <+: (c :: rest)
    · rw [if_pos hp]
      simp only [Option.isSome_some, iff_true, pyIn, decide_eq_true_eq]
      exact hp.isInfix
    · rw [if_neg hp]
      simp only [pyIn, decide_eq_true_eq, List.infix_cons_iff, hp, false_or,
        Option.isSome_map]
      simpa [pyIn] using ih

/-- A successful `edit_apply` is the in-order left fold of first-occurrence
replacements. -/
theorem edit_apply_ok (reps : List Replacement) :
    ∀ (s c : List Char), edit_apply reps s = Except.ok c →
      c = reps.foldl (fun s r => replaceFirst s r.find r.repl) s := by
  induction reps with
  | nil =>
    intro s c h
    rw [edit_apply] at h
    cases h
    simp
  | cons r rs ih =>
    intro s c h
    rw [edit_apply] at h
    by_cases hp : pyIn r.find s = true
    · rw [if_pos hp] at h
      rw [List.foldl_cons]
      exact ih _ c h
    · rw [if_neg hp] at h
      cases h

/-- A failing `edit_apply` names the find string of the first replacement
whose find does not occur in the partially rewritten content. -/
theorem edit_apply_error (reps : List Replacement) :
    ∀ (s f : List Char), edit_apply reps s = Except.error f →
      ∃ k, ∃ hk : k < reps.length,
        f = (reps.get ⟨k, hk⟩).find
        ∧ pyIn (reps.get ⟨k, hk⟩).find
            ((reps.take k).foldl (fun s r => replaceFirst s r.find r.repl) s) = false := by
  induction reps with
  | nil =>
    intro s f h
    rw [edit_apply] at h
    cases h
  | cons r rs ih =>
    intro s f h
    rw [edit_apply] at h
    by_cases hp : pyIn r.find s = true
    · rw [if_pos hp] at h
      obtain ⟨k, hk, hf, hmiss⟩ := ih _ f h
      refine ⟨k + 1, by simpa using Nat.succ_lt_succ hk, ?_, ?_⟩
      · simpa using hf
      · simpa using hmiss
    · rw [if_neg hp] at h
      cases h
      refine ⟨0, by simp, by simp, ?_⟩
      simpa using hp

/-- Some find string missing along the way forces `edit_apply` to fail. -/
theorem edit_apply_error_exists (reps : List Replacement) :
    ∀ s : List Char,
      (∃ k, ∃ hk : k < reps.length,
        pyIn (reps.get ⟨k, hk⟩).find
          ((reps.take k).foldl (fun s r => replaceFirst s r.find r.repl) s) = false) →
      ∃ f, edit_apply reps s = Except.error f := by
  induction reps with
  | nil =>
    intro s h
    obtain ⟨k, hk, _⟩ := h
    simp at hk
  | cons r rs ih =>
    intro s h
    rw [edit_apply]
    by_cases hp : pyIn r.find s = true
    · rw [if_pos hp]
      obtain ⟨k, hk, hmiss⟩ := h
      cases k with
      | zero =>
        simp at hmiss
        rw [hmiss] at hp
        cases hp
      | succ k' =>
        apply ih
        refine ⟨k', by simpa using Nat.lt_of_succ_lt_succ hk, ?_⟩
        simpa using hmiss
    · rw [if_neg hp]
      exact ⟨r.find, rfl⟩

/-- C5: EDIT semantics.  Replacements are applied in list order, each
replacing only the first occurrence of its find string (conjunct 1 and the
`firstOccurrence` characterization, conjunct 4); a find string missing
from the partially rewritten content makes `edit_file` raise (conjunct 3)
an error naming that find string, in which case the disk contents are
unchanged and a user record documenting the failure is appended
(conjunct 2). -/
theorem edit_file_semantics (max : Nat) (file_path : List Char)
    (replacements : List Replacement) (disk : List Char)
    (conversation : List ConversationRecord) :
    ((edit_file_step max file_path replacements disk conversation).result = Except.ok ()
      → (edit_file_step max file_path replacements disk conversation).disk
          = replacements.foldl (fun s r => replaceFirst s r.find r.repl) disk)
    ∧ (∀ m, (edit_file_step max file_path replacements disk conversation).result
          = Except.error m →
        (edit_file_step max file_path replacements disk conversation).disk = disk
        ∧ (edit_file_step max file_path replacements disk conversation).conversation
            = append_to_history max conversation (actionErrorRecord m)
        ∧ (actionErrorRecord m).role = ConversationRole.user
        ∧ m <:+: (actionErrorRecord m).content
        ∧ ∃ k, ∃ hk : k < replacements.length,
            m = editErrorMessage (replacements.get ⟨k, hk⟩).find file_path
            ∧ (replacements.get ⟨k, hk⟩).find <:+: m
            ∧ pyIn (replacements.get ⟨k, hk⟩).find
                ((replacements.take k).foldl
                  (fun s r => replaceFirst s r.find r.repl) disk) = false)
    ∧ ((∃ k, ∃ hk : k < replacements.length,
          pyIn (replacements.get ⟨k, hk⟩).find
            ((replacements.take k).foldl
              (fun s r => replaceFirst s r.find r.repl) disk) = false) →
        ∃ m, (edit_file_step max file_path replacements disk conversation).result
          = Except.error m)
    ∧ (∀ (s old new : List Char) (i : Nat), firstOccurrence old s = some i →
        replaceFirst s old new = s.take i ++ new ++ s.drop (i + old.length)
        ∧ old <+: s.drop i
        ∧ ∀ j < i, ¬ old <+: s.drop j) := by
  refine ⟨?_, ?_, ?_, ?_⟩
  · intro hok
    unfold edit_file_step at hok ⊢
    cases heq : edit_apply replacements disk with
    | error f =>
      rw [heq] at hok
      cases hok
    | ok c =>
      dsimp only
      simpa using edit_apply_ok replacements disk c heq
  · intro m hm
    unfold edit_file_step at hm ⊢
    cases heq : edit_apply replacements disk with
    | error f =>
      rw [heq] at hm
      obtain ⟨k, hk, hf, hmiss⟩ := edit_apply_error replacements disk f heq
      have hm' : editErrorMessage f file_path = m := by
        simpa using hm
      subst hf
      refine ⟨rfl, ?_, rfl, ?_, k, hk, hm'.symm, ?_, hmiss⟩
      · rw [← hm']
      · rw [← hm']
        unfold actionErrorRecord
        exact ⟨"There was an error encountered while trying to execute your action:\n\n".toList,
          "\n\nPlease adjust your response to fix the issue.".toList, by simp⟩
      · rw [← hm']
        unfold editErrorMessage
        exact ⟨"Find string ".toList ++ [squote],
          [squote] ++ " not found in file ".toList ++ file_path, by simp⟩
    | ok c =>
      rw [heq] at hm
      cases hm
  · intro hex
    obtain ⟨f, hf⟩ := edit_apply_error_exists replacements disk hex
    refine ⟨editErrorMessage f file_path, ?_⟩
    unfold edit_file_step
    rw [hf]
  · intro s old new i hi
    obtain ⟨hpre, hmin⟩ := firstOccurrence_spec old s i hi
    refine ⟨?_, hpre, hmin⟩
    unfold replaceFirst
    rw [hi]

/-! ## READ action -/

/-- `executor.MAX_FILE_READ_SIZE_BYTES` (executor.py line 64). -/
def MAX_FILE_READ_SIZE_BYTES : Nat := 1024 * 24

/-- The `ValueError` message of `read_file` (executor.py lines 1981-1985). -/
def readTooLargeMessage (file_path : List Char) : List Char :=
  "File is too large to use read action on: ".toList ++ file_path
    ++ "\nPlease use code action to summarize and extract key features from the file instead.".toList

/-- `read_file`'s annotated content with the empty-file fallback
(executor.py lines 1990-1993): Python replaces a falsy annotation
(`None` or the empty string) with `[File is empty]`. -/
def annotatedFileContent (file_content : List Char) : List Char :=
  match annotate_code file_content none with
  | none => "[File is empty]".toList
  | some a => if a = [] then "[File is empty]".toList else a

/-- The user record `read_file` appends (executor.py lines 1995-2010). -/
def readFileRecord (file_path annotated_content : List Char) : ConversationRecord :=
  { role := ConversationRole.user
    content :=
      "Here are the contents of ".toList ++ file_path
        ++ " with line numbers and lengths:\n\nLine | Length | Content\n----------------------\nBEGIN\n".toList
        ++ annotated_content ++ "\nEND".toList
    should_summarize := true
    should_cache := true }

/-- `LocalCodeExecutor.read_file` (executor.py lines 1961-2024): refuse
when the on-disk size strictly exceeds `max_file_size_bytes`, otherwise
read, annotate, and append the user record.  The file is represented by
its byte size and its decoded content. -/
def read_file_model (max max_file_size_bytes : Nat) (file_path : List Char)
    (file_size : Nat) (file_content : List Char)
    (conversation : List ConversationRecord) :
    Except (List Char) (List ConversationRecord) :=
  if file_size > max_file_size_bytes then
    Except.error (readTooLargeMessage file_path)
  else
    Except.ok (append_to_history max conversation
      (readFileRecord file_path (annotatedFileContent file_content)))

/-- C6: `read_file` raises the too-large error recommending the CODE
action exactly when the file size strictly exceeds 24 KiB (the default cap
`MAX_FILE_READ_SIZE_BYTES = 1024 * 24`); a file of exactly 24 KiB is
accepted and its annotated contents are appended to the conversation as a
user record. -/
theorem read_file_size_gate (max : Nat) (file_path : List Char) (file_size : Nat)
    (file_content : List Char) (conversation : List ConversationRecord) :
    (MAX_FILE_READ_SIZE_BYTES = 24 * 1024)
    ∧ ((∃ e, read_file_model max MAX_FILE_READ_SIZE_BYTES file_path file_size
          file_content conversation = Except.error e) ↔ file_size > 24 * 1024)
    ∧ (∀ e, read_file_model max MAX_FILE_READ_SIZE_BYTES file_path file_size
          file_content conversation = Except.error e →
        "code action".toList <:+: e)
    ∧ (file_size = 24 * 1024 →
        read_file_model max MAX_FILE_READ_SIZE_BYTES file_path file_size
            file_content conversation
          = Except.ok (append_to_history max conversation
              (readFileRecord file_path (annotatedFileContent file_content)))
        ∧ (readFileRecord file_path (annotatedFileContent file_content)).role
            = ConversationRole.user
        ∧ (annotatedFileContent file_content) <:+:
            (readFileRecord file_path (annotatedFileContent file_content)).content) := by
  have hmax : MAX_FILE_READ_SIZE_BYTES = 24 * 1024 := by decide
  refine ⟨hmax, ?_, ?_, ?_⟩
  · rw [hmax]
    unfold read_file_model
    by_cases hgt : file_size > 24 * 1024
    · simp [hgt]
    · simp [hgt]
  · intro e he
    rw [hmax] at he
    unfold read_file_model at he
    by_cases hgt : file_size > 24 * 1024
    · rw [if_pos hgt] at he
      simp only [Except.error.injEq] at he
      subst he
      have hb : "\nPlease use code action to summarize and extract key features from the file instead.".toList
          = "\nPlease use ".toList ++ "code action".toList
            ++ " to summarize and extract key features from the file instead.".toList := by
        decide
      refine ⟨"File is too large to use read action on: ".toList ++ file_path
        ++ "\nPlease use ".toList,
        " to summarize and extract key features from the file instead.".toList, ?_⟩
      unfold readTooLargeMessage
      rw [hb]
      simp [List.append_assoc]
    · rw [if_neg hgt] at he
      cases he
  · intro hsize
    subst hsize
    rw [hmax]
    refine ⟨?_, rfl, ?_⟩
    · unfold read_file_model
      rw [if_neg (by omega)]
    · unfold readFileRecord
      exact ⟨"Here are the contents of ".toList ++ file_path
        ++ " with line numbers and lengths:\n\nLine | Length | Content\n----------------------\nBEGIN\n".toList,
        "\nEND".toList, by simp [List.append_assoc]⟩

/-! ## `execute_wsl_command` (tools.py) -/

/-- A Python dictionary value occurring in `execute_wsl_command`'s result. -/
inductive PyValue where
  | b (v : Bool)
  | s (v : List Char)
  | i (v : Int)
deriving DecidableEq, Repr

/-- `tools.execute_wsl_command` (tools.py lines 700-789), abstracted over
the subprocess outcomes: `wsl_check_rc` is the return code of
`wsl.exe --status`, `(run_stdout, run_stderr, run_rc)` the captured
streams and return code of the command itself, and `exc` an exception
message when any step raises.  The value is the returned dictionary as an
ordered key/value list. -/
def execute_wsl_command_model (wsl_check_rc : Int)
    (run_stdout run_stderr : List Char) (run_rc : Int)
    (exc : Option (List Char)) : List (String × PyValue) :=
  match exc with
  | some e =>
    [("success", PyValue.b false), ("output", PyValue.s []),
     ("error", PyValue.s e), ("return_code", PyValue.i (-1))]
  | none =>
    if wsl_check_rc ≠ 0 then
      [("success", PyValue.b false), ("output", PyValue.s []),
       ("error", PyValue.s "WSL2 is not available on this system".toList),
       ("return_code", PyValue.i wsl_check_rc)]
    else
      [("success", PyValue.b (run_rc == 0)), ("output", PyValue.s run_stdout),
       ("error", PyValue.s run_stderr), ("return_code", PyValue.i run_rc)]

/-- C9 (amended): the dictionary returned by `execute_wsl_command` has
exactly the keys `success`, `output`, `error`, `return_code` (not
`stdout`/`stderr`), and `success` is true exactly when the recorded
return code is 0. -/
theorem execute_wsl_command_result_shape (wsl_check_rc : Int)
    (run_stdout run_stderr : List Char) (run_rc : Int) (exc : Option (List Char)) :
    ((execute_wsl_command_model wsl_check_rc run_stdout run_stderr run_rc exc).map
        Prod.fst = ["success", "output", "error", "return_code"])
    ∧ ((execute_wsl_command_model wsl_check_rc run_stdout run_stderr run_rc exc).lookup
          "success" = some (PyValue.b true)
        ↔ (execute_wsl_command_model wsl_check_rc run_stdout run_stderr run_rc exc).lookup
            "return_code" = some (PyValue.i 0)) := by
  cases exc with
  | some e =>
    unfold execute_wsl_command_model
    refine ⟨rfl, ?_⟩
    simp [List.lookup]
  | none =>
    unfold execute_wsl_command_model
    by_cases hrc : wsl_check_rc ≠ 0
    · rw [if_pos hrc]
      refine ⟨rfl, ?_⟩
      simp [List.lookup, hrc]
    · rw [if_neg hrc]
      push_neg at hrc
      refine ⟨rfl, ?_⟩
      simp [List.lookup, hrc]

/-- Counterexample to C9 as stated: at a successful concrete invocation
the keys are `success`, `output`, `error`, `return_code`; neither `stdout`
nor `stderr` is a key of the returned map. -/
theorem execute_wsl_command_keys_cex :
    ((execute_wsl_command_model 0 "hi".toList [] 0 none).map Prod.fst
      = ["success", "output", "error", "return_code"])
    ∧ ¬ ("stdout" ∈ (execute_wsl_command_model 0 "hi".toList [] 0 none).map Prod.fst)
    ∧ ¬ ("stderr" ∈ (execute_wsl_command_model 0 "hi".toList [] 0 none).map Prod.fst) := by
  refine ⟨rfl, ?_, ?_⟩ <;> decide

/-! ## `check_response_safety`: auditor failure modes -/

/-- Python `s.replace(old, new)` (all occurrences, left to right), for a
non-empty `old`; the fuel argument bounds the recursion. -/
def replaceAllAux (old new : List Char) : Nat → List Char → List Char
  | 0, s => s
  | fuel + 1, s =>
    match firstOccurrence old s with
    | none => s
    | some i => s.take i ++ new ++ replaceAllAux old new fuel (s.drop (i + old.length))

/-- Python `s.replace(old, new)`; an empty `old` (not used by the source)
is left as the identity. -/
def pyReplaceAll (s old new : List Char) : List Char :=
  if old = [] then s else replaceAllAux old new (s.length + 1) s

/-- Python `str.strip()` over the ASCII whitespace in these strings. -/
def isPyWhitespace (c : Char) : Bool :=
  c == ' ' || c == '\t' || c == '\n' || c == '\r' || c == '\x0b' || c == '\x0c'

def pyStrip (s : List Char) : List Char :=
  ((s.dropWhile isPyWhitespace).reverse.dropWhile isPyWhitespace).reverse

/-- The assistant-facing user record `check_response_safety` appends when
the conversation-confirm auditor answers UNSAFE (executor.py lines
1045-1061): the analysis is the response with `[UNSAFE]` removed and
stripped. -/
def securityAdvisoryRecord (response_content : List Char) : ConversationRecord :=
  let analysis := pyStrip (pyReplaceAll response_content "[UNSAFE]".toList [])
  { role := ConversationRole.user
    content :=
      "Your action was denied by the AI security auditor because it was deemed unsafe. Here is an analysis of the code risk by the security auditor AI agent:\n\n".toList
        ++ analysis
        ++ "\n\nPlease re-summarize the security risk in natural language and not JSON format.  Don".toList
        ++ [squote]
        ++ "t acknowledge this message directly but instead pretend that you are responding as the AI security auditor directly to the user".toList
        ++ [squote] ++ "s request.".toList }

/-- `LocalCodeExecutor.check_response_safety` (executor.py lines 952-1064),
with the auditor LLM call abstracted to its outcome `model_outcome`
(an error or the response text).  In prompt-user mode (lines 967-995) the
call is unguarded, so an LLM error propagates; in conversation-confirm
mode (lines 1032-1041) the call sits in a `try/except` that returns
UNSAFE, and an UNSAFE verdict additionally appends the advisory record
(lines 1045-1061).  The transcript building (lines 1001-1030) does not
affect the verdict and is not modelled. -/
def check_response_safety_model (can_prompt_user : Bool)
    (model_outcome : Except (List Char) (List Char)) (max : Nat)
    (conversation : List ConversationRecord) :
    Except (List Char) (ConfirmSafetyResult × List ConversationRecord) :=
  if can_prompt_user then
    match model_outcome with
    | Except.error e => Except.error e
    | Except.ok response_content =>
      Except.ok (get_confirm_safety_result response_content, conversation)
  else
    match model_outcome with
    | Except.error _ => Except.ok (ConfirmSafetyResult.UNSAFE, conversation)
    | Except.ok response_content =>
      let safety_result := get_confirm_safety_result response_content
      if safety_result = ConfirmSafetyResult.UNSAFE then
        Except.ok (ConfirmSafetyResult.UNSAFE,
          append_to_history max conversation (securityAdvisoryRecord response_content))
      else
        Except.ok (safety_result, conversation)

/-- C10: when the auditor's own LLM call raises, conversation-confirm mode
(`can_prompt_user = false`) fails closed and returns the UNSAFE verdict
without touching the conversation, while prompt-user mode propagates the
same failure as an exception. -/
theorem check_response_safety_fails_closed (max : Nat)
    (conversation : List ConversationRecord) (e : List Char) :
    (check_response_safety_model false (Except.error e) max conversation
        = Except.ok (ConfirmSafetyResult.UNSAFE, conversation))
    ∧ (check_response_safety_model true (Except.error e) max conversation
        = Except.error e) :=
  ⟨rfl, rfl⟩
